import Mathlib

/-!
Verification of the `$mergeCursors` pipeline stage
(`src/mongo/db/pipeline/document_source_merge_cursors.h`).

The repository provides only the header: the bodies of `create`,
`createFromBson`, `getNext`, `doDispose`, `doOptimizeAt`,
`serializeToArray`, `detachFromOperationContext` and
`reattachToOperationContext` live in a `.cpp` file that is not part of the
source tree.  Those operations are therefore modelled from the
specification; each such definition carries a doc comment starting with
`Modelled from the spec:`.  The two members whose bodies are in the header
(`serialize`, which is `MONGO_UNREACHABLE`, and `constraints`) are
translated directly from the source.
-/

deriving instance DecidableEq for Except

namespace MergeCursors

/-- Sort key specification: an ordered sequence of (field, ascending?) pairs. -/
def SortKeySpec : Type := List (String × Bool)

instance : DecidableEq SortKeySpec := by
  unfold SortKeySpec
  infer_instance

/-- One remote partial result stream: the identity of the owning host/shard,
the remote cursor handle, and an optional pre-fetched initial batch.
Results are modelled as integers (standing for their sort-key value). -/
structure RemoteSource where
  hostIdentity : String
  handle : Nat
  pendingBatch : List Int
  deriving DecidableEq, Repr

/-- Merge parameters (`ClusterClientCursorParams`): the ordered set of remote
sources and an optional sort key specification (absence means unordered
merge).  Held by the stage until the first pull. -/
structure ClusterClientCursorParams where
  remotes : List RemoteSource
  sortKey : Option SortKeySpec
  deriving DecidableEq

/-- Modelled from the spec: the Async Merge Engine (`AsyncResultsMerger`),
whose implementation is not in the source tree.  It owns the remote source
descriptors, keeps one buffer of not-yet-emitted results per source, knows
whether a sort key was set, and has a one-shot killed flag. -/
structure AsyncResultsMerger where
  remotes : List RemoteSource
  buffers : List (List Int)
  ordered : Bool
  killed : Bool
  deriving DecidableEq

/-- Modelled from the spec: constructing the Async Merge Engine from consumed
merge parameters.  Each source's pending batch becomes that source's initial
buffer; the engine is ordered exactly when a sort key was supplied. -/
def armInit (params : ClusterClientCursorParams) : AsyncResultsMerger :=
  { remotes := params.remotes
    buffers := params.remotes.map RemoteSource.pendingBatch
    ordered := params.sortKey.isSome
    killed := false }

/-- Ownership state of the stage: exactly one of Unclaimed (holding inert
merge parameters, `_armParams` set and `_arm` empty), Active (`_arm`
constructed, parameters consumed) or Disposed. -/
inductive OwnershipState where
  | unclaimed (params : ClusterClientCursorParams)
  | active (arm : AsyncResultsMerger)
  | disposed
  deriving DecidableEq

/-- The `$mergeCursors` stage (`DocumentSourceMergeCursors`): its ownership
state.  The executor handle carries no observable data in this model. -/
structure DocumentSourceMergeCursors where
  state : OwnershipState
  deriving DecidableEq

/-- Error taxonomy of the spec. -/
inductive ErrorCode where
  | invalidArgument
  | illegalState
  | cancelled
  | remoteFetchFailure
  deriving DecidableEq, Repr

/-- Observable side effect on the scheduling substrate: an attempt to kill
one remote cursor handle on its owning host. -/
inductive Effect where
  | killCursor (hostIdentity : String) (handle : Nat)
  deriving DecidableEq, Repr

/-- Modelled from the spec: `create` builds a stage in Unclaimed state from a
caller-supplied remote source set, contacting no remote worker; it fails
with `InvalidArgument` when the source set is empty.  `create` in the
source takes no sort key, so the held parameters are unordered. -/
def create (remoteCursors : List RemoteSource) :
    Except ErrorCode DocumentSourceMergeCursors :=
  if remoteCursors.isEmpty then
    .error .invalidArgument
  else
    .ok { state := .unclaimed { remotes := remoteCursors, sortKey := none } }

/-- The forwarded wire representation: an ordered list of
(host identity, remote handle, optional pending batch) entries plus an
optional sort-key specification. -/
structure WireForm where
  remotes : List RemoteSource
  sortKey : Option SortKeySpec
  deriving DecidableEq

/-- Modelled from the spec: `serializeToArray` produces the forwarded wire
representation.  It is valid only in the Unclaimed state; in any other state
it is a programming error, modelled as `none`. -/
def serializeToArray (s : DocumentSourceMergeCursors) : Option WireForm :=
  match s.state with
  | .unclaimed params => some { remotes := params.remotes, sortKey := params.sortKey }
  | _ => none

/-- Modelled from the spec: `createFromBson` (parse) reconstructs an
Unclaimed stage from a forwarded wire representation, with the same
invariants as `create` (non-empty source set). -/
def createFromBson (w : WireForm) : Except ErrorCode DocumentSourceMergeCursors :=
  if w.remotes.isEmpty then
    .error .invalidArgument
  else
    .ok { state := .unclaimed { remotes := w.remotes, sortKey := w.sortKey } }

/-- Modelled from the spec: killing the engine's remaining remote resources.
`killOutcome` is the scheduling substrate's response (`false` = the kill RPC
failed); the attempt is recorded either way and failures are suppressed, so
the result does not depend on `killOutcome` at all. -/
def armKillEffects (killOutcome : Nat → Bool) (arm : AsyncResultsMerger) :
    List Effect :=
  arm.remotes.map fun r =>
    match killOutcome r.handle with
    | true => Effect.killCursor r.hostIdentity r.handle
    | false => Effect.killCursor r.hostIdentity r.handle

/-- Modelled from the spec: `doDispose` is the idempotent terminal transition
to Disposed.  From Unclaimed it kills nothing (ownership was never claimed);
from Active it kills all remaining remote resources; from Disposed it does
nothing.  It never fails: the returned effects are the attempted kills. -/
def doDispose (killOutcome : Nat → Bool) (s : DocumentSourceMergeCursors) :
    DocumentSourceMergeCursors × List Effect :=
  match s.state with
  | .unclaimed _ => ({ state := .disposed }, [])
  | .active arm =>
      if arm.killed then ({ state := .disposed }, [])
      else ({ state := .disposed }, armKillEffects killOutcome arm)
  | .disposed => ({ state := .disposed }, [])

/-- Remove the head element of the `i`-th stream, leaving the others
untouched (identity when `i` is out of range or the stream is empty). -/
def popAt {α : Type} : List (List α) → Nat → List (List α)
  | [], _ => []
  | l :: rest, 0 => l.tail :: rest
  | l :: rest, n + 1 => l :: popAt rest n

/-- Modelled from the spec: the engine's choice of the next result in the
ordered merge.  Among all non-exhausted streams it returns the index and
head of the one whose head has the least key, breaking ties in favour of the
earliest stream (source insertion order); `none` when all are exhausted. -/
def bestSource {α : Type} (key : α → Int) : List (List α) → Option (Nat × α)
  | [] => none
  | [] :: rest => (bestSource key rest).map fun p => (p.1 + 1, p.2)
  | (x :: _) :: rest =>
      match bestSource key rest with
      | none => some (0, x)
      | some (i, v) => if key v < key x then some (i + 1, v) else some (0, x)

/-- Total number of buffered results across all streams. -/
def totalLen {α : Type} (srcs : List (List α)) : Nat :=
  (srcs.map List.length).sum

/-- Fuelled worker for the ordered merge. -/
def mergeOrderedAux {α : Type} (key : α → Int) : Nat → List (List α) → List α
  | 0, _ => []
  | fuel + 1, srcs =>
      match bestSource key srcs with
      | none => []
      | some (i, v) => v :: mergeOrderedAux key fuel (popAt srcs i)

/-- Modelled from the spec: the Async Merge Engine's ordered merge — with a
sort key set it emits results in non-decreasing key order, ties broken by
source insertion order, until every stream is exhausted. -/
def mergeOrdered {α : Type} (key : α → Int) (srcs : List (List α)) : List α :=
  mergeOrderedAux key (totalLen srcs) srcs

/-- Worker for the unordered merge: follow the arrival schedule, emitting the
head of the scheduled stream when it has one; when the schedule runs out,
drain whatever is left in stream order. -/
def mergeUnorderedAux {α : Type} : List Nat → List (List α) → List α
  | [], srcs => srcs.flatten
  | i :: sched, srcs =>
      match srcs[i]? with
      | some (x :: _) => x :: mergeUnorderedAux sched (popAt srcs i)
      | _ => mergeUnorderedAux sched srcs

/-- Modelled from the spec: the Async Merge Engine's unordered merge — with
no sort key set, results are emitted in arrival order.  Arrival
nondeterminism is made explicit as a schedule of source indices. -/
def mergeUnordered {α : Type} (sched : List Nat) (srcs : List (List α)) :
    List α :=
  mergeUnorderedAux sched srcs

/-- Modelled from the spec: one `next()` call on the Async Merge Engine.
After `kill()` it fails with `Cancelled`; otherwise it emits the ordered
pick (sort key set) or the head of the first stream with buffered data
(unordered; the concrete arrival order of this model), and reports
end-of-stream with `none` once every stream is exhausted. -/
def armNext (arm : AsyncResultsMerger) :
    Except ErrorCode (AsyncResultsMerger × Option Int) :=
  if arm.killed then
    .error .cancelled
  else
    match bestSource (fun v => if arm.ordered then v else 0) arm.buffers with
    | none => .ok (arm, none)
    | some (i, v) => .ok ({ arm with buffers := popAt arm.buffers i }, some v)

/-- Modelled from the spec: `getNext` — the one-time claim.  On an Unclaimed
stage it constructs the Async Merge Engine from the held parameters (which
are thereby discarded), sets the state to Active and forwards to the engine;
on an Active stage it forwards to the engine; after Disposed it fails with
`IllegalState`. -/
def getNext (s : DocumentSourceMergeCursors) :
    Except ErrorCode (DocumentSourceMergeCursors × Option Int) :=
  match s.state with
  | .unclaimed params =>
      match armNext (armInit params) with
      | .error e => .error e
      | .ok (arm, r) => .ok ({ state := .active arm }, r)
  | .active arm =>
      match armNext arm with
      | .error e => .error e
      | .ok (arm', r) => .ok ({ state := .active arm' }, r)
  | .disposed => .error .illegalState

/-- Modelled from the spec: `detachFromOperationContext` releases the bound
execution context between pulls; it touches neither the ownership state nor
any remote resource. -/
def detachFromOperationContext (s : DocumentSourceMergeCursors) :
    DocumentSourceMergeCursors :=
  s

/-- Modelled from the spec: `reattachToOperationContext` re-binds an
execution context.  It fails with `IllegalState` when the stage was never
claimed (nothing to rebind) and leaves the stage unchanged; on an Active
stage it succeeds without touching the ownership state. -/
def reattachToOperationContext (s : DocumentSourceMergeCursors) :
    Except ErrorCode DocumentSourceMergeCursors :=
  match s.state with
  | .unclaimed _ => .error .illegalState
  | .active _ => .ok s
  | .disposed => .error .illegalState

/-- A neighbouring pipeline stage as seen by the optimizer hook: a pure sort
by some key, or anything else. -/
inductive PipelineStage where
  | sortStage (key : SortKeySpec)
  | otherStage (id : Nat)
  deriving DecidableEq

/-- Modelled from the spec: `doOptimizeAt`, the sort-absorption fusion.
When the stage is still Unclaimed and unordered and the next pipeline stage
is a pure sort by key `K`, the held sort specification becomes `K` and the
sort stage is reported removable (`true`); in every other situation nothing
is rewritten. -/
def doOptimizeAt (s : DocumentSourceMergeCursors)
    (next : Option PipelineStage) : DocumentSourceMergeCursors × Bool :=
  match s.state, next with
  | .unclaimed params, some (.sortStage k) =>
      match params.sortKey with
      | none => ({ state := .unclaimed { params with sortKey := some k } }, true)
      | some _ => (s, false)
  | _, _ => (s, false)

/-- Outcome of the single-`Value` `serialize` member. -/
inductive SerializeOutcome where
  | unreachableTrap
  | value (w : WireForm)
  deriving DecidableEq

/-- Explain verbosity option, carried only as an opaque argument. -/
inductive Verbosity where
  | queryPlanner
  | execStats
  | allPlansExecution
  deriving DecidableEq

/-- The private single-`Value` `serialize` member: its body in the source is
only `MONGO_UNREACHABLE` (callers should use `serializeToArray` instead), so
it traps for every stage state and every explain argument. -/
def serialize (_s : DocumentSourceMergeCursors) (_explain : Option Verbosity) :
    SerializeOutcome :=
  .unreachableTrap

/-- StreamType of a stage (from `StageConstraints`). -/
inductive StreamType where
  | streaming
  | blocking
  deriving DecidableEq

/-- Position requirement of a stage in the pipeline. -/
inductive PositionRequirement where
  | anyPosition
  | first
  | last
  deriving DecidableEq

/-- Host type requirement of a stage. -/
inductive HostTypeRequirement where
  | anyHost
  | anyShard
  | onlyMongoS
  deriving DecidableEq

/-- Disk use requirement of a stage. -/
inductive DiskUseRequirement where
  | noDiskUse
  | writesTmpData
  deriving DecidableEq

/-- Whether the stage is allowed inside a $facet stage. -/
inductive FacetRequirement where
  | allowed
  | notAllowed
  deriving DecidableEq

/-- Whether the stage is allowed inside a multi-document transaction. -/
inductive TransactionRequirement where
  | allowed
  | notAllowed
  deriving DecidableEq

/-- Pipeline split state argument of `constraints`. -/
inductive SplitState where
  | unsplit
  | splitForShards
  | splitForMerge
  deriving DecidableEq

/-- The constraints record a stage reports to the pipeline. -/
structure StageConstraints where
  streamType : StreamType
  requiredPosition : PositionRequirement
  hostRequirement : HostTypeRequirement
  diskRequirement : DiskUseRequirement
  facetRequirement : FacetRequirement
  transactionRequirement : TransactionRequirement
  requiresInputDocSource : Bool
  deriving DecidableEq

/-- `constraints`, translated from the header: a streaming stage that must
be first in the pipeline, may run on any shard, uses no disk, is not allowed
in $facet or transactions, and requires no input document source — for every
stage and every split state. -/
def constraints (_s : DocumentSourceMergeCursors) (_pipeState : SplitState) :
    StageConstraints :=
  { streamType := .streaming
    requiredPosition := .first
    hostRequirement := .anyShard
    diskRequirement := .noDiskUse
    facetRequirement := .notAllowed
    transactionRequirement := .notAllowed
    requiresInputDocSource := false }

/-- The pipeline-driven operations on a stage, for reasoning about whole
interaction traces. -/
inductive Op where
  | pull
  | dispose
  | detach
  | reattach
  deriving DecidableEq

/-- One pipeline-driven step.  Errors are reported to the caller and leave
the stage unchanged; effects are the attempted remote kills. -/
def step (killOutcome : Nat → Bool) (s : DocumentSourceMergeCursors) :
    Op → DocumentSourceMergeCursors × List Effect × Option ErrorCode
  | .pull =>
      match getNext s with
      | .error e => (s, [], some e)
      | .ok (s', _) => (s', [], none)
  | .dispose =>
      match doDispose killOutcome s with
      | (s', fx) => (s', fx, none)
  | .detach => (detachFromOperationContext s, [], none)
  | .reattach =>
      match reattachToOperationContext s with
      | .error e => (s, [], some e)
      | .ok s' => (s', [], none)

/-- The sequence of stage states visited while running a list of operations,
starting state included. -/
def runStates (killOutcome : Nat → Bool) (s : DocumentSourceMergeCursors) :
    List Op → List DocumentSourceMergeCursors
  | [] => [s]
  | op :: ops => s :: runStates killOutcome (step killOutcome s op).1 ops

/-- All kill effects attempted while running a list of operations. -/
def runEffects (killOutcome : Nat → Bool) (s : DocumentSourceMergeCursors) :
    List Op → List Effect
  | [] => []
  | op :: ops =>
      (step killOutcome s op).2.1 ++
        runEffects killOutcome (step killOutcome s op).1 ops

/-- Whether the stage still holds unclaimed merge parameters. -/
def isUnclaimed (s : DocumentSourceMergeCursors) : Bool :=
  match s.state with
  | .unclaimed _ => true
  | _ => false

/-- Whether the stage holds a constructed Async Merge Engine. -/
def isActive (s : DocumentSourceMergeCursors) : Bool :=
  match s.state with
  | .active _ => true
  | _ => false

/-- Number of Unclaimed-to-Active transitions along a visited-state
sequence. -/
def claimCount : List DocumentSourceMergeCursors → Nat
  | s :: s' :: rest =>
      (if isUnclaimed s && isActive s' then 1 else 0) + claimCount (s' :: rest)
  | _ => 0

/-- Sample one-source parameter set used in concrete witnesses. -/
def sampleParams : ClusterClientCursorParams :=
  { remotes := [⟨"s0", 7, [1]⟩], sortKey := none }

/-- Sample wire form with a sort key used in concrete witnesses. -/
def sampleWire : WireForm :=
  { remotes := [⟨"s1", 8, []⟩], sortKey := some [("a", true)] }

/-- Sample one-source parameter set with a buffered result, used in concrete
witnesses about pulling. -/
def samplePullParams : ClusterClientCursorParams :=
  { remotes := [⟨"s0", 1, [5]⟩], sortKey := none }

/-- The engine state after claiming `samplePullParams` and emitting its one
buffered result. -/
def samplePulledArm : AsyncResultsMerger :=
  { remotes := [⟨"s0", 1, [5]⟩], buffers := [[]], ordered := false,
    killed := false }

/-- Sample two-source parameter set with a sort key, used in the round-trip
witness. -/
def sampleSortedParams : ClusterClientCursorParams :=
  { remotes := [⟨"s0", 1, [3]⟩, ⟨"s1", 2, []⟩], sortKey := some [("k", true)] }

/-- Sample tagged streams (value, source index) used in the tie-break
witness: sources 0 and 1 share the key 1. -/
def taggedSample : List (List (Int × Nat)) :=
  [[(1, 0), (4, 0)], [(1, 1)], [(2, 2)]]

/-! Lemmas about the merge machinery. -/

theorem popAt_getElem? {α : Type} :
    ∀ (srcs : List (List α)) (i j : Nat),
      (popAt srcs i)[j]? =
        if i = j then (srcs[j]?).map List.tail else srcs[j]?
  | [], i, j => by cases i <;> simp [popAt]
  | l :: rest, 0, 0 => by simp [popAt]
  | l :: rest, 0, j + 1 => by simp [popAt]
  | l :: rest, i + 1, 0 => by simp [popAt]
  | l :: rest, i + 1, j + 1 => by
      simpa [popAt] using popAt_getElem? rest i j

theorem bestSource_eq_some {α : Type} (key : α → Int) :
    ∀ (srcs : List (List α)) (i : Nat) (v : α),
      bestSource key srcs = some (i, v) → ∃ t, srcs[i]? = some (v :: t)
  | [], i, v => by simp [bestSource]
  | [] :: rest, i, v => by
      simp only [bestSource, Option.map_eq_some']
      rintro ⟨⟨i', v'⟩, h, hev⟩
      obtain ⟨t, ht⟩ := bestSource_eq_some key rest i' v' h
      cases hev
      exact ⟨t, by simpa using ht⟩
  | (x :: xs) :: rest, i, v => by
      intro h
      rcases hbs : bestSource key rest with _ | ⟨i', v'⟩
      · simp only [bestSource, hbs] at h
        cases h
        exact ⟨xs, by simp⟩
      · simp only [bestSource, hbs] at h
        by_cases hlt : key v' < key x
        · rw [if_pos hlt] at h
          cases h
          obtain ⟨t, ht⟩ := bestSource_eq_some key rest i' v hbs
          exact ⟨t, by simpa using ht⟩
        · rw [if_neg hlt] at h
          cases h
          exact ⟨xs, by simp⟩

theorem bestSource_eq_none {α : Type} (key : α → Int) :
    ∀ (srcs : List (List α)), bestSource key srcs = none →
      ∀ l ∈ srcs, l = []
  | [], _ => by simp
  | [] :: rest, h => by
      rw [bestSource] at h
      intro l hl
      rcases List.mem_cons.1 hl with rfl | hl'
      · rfl
      · exact bestSource_eq_none key rest (by simpa using h) l hl'
  | (x :: xs) :: rest, h => by
      rw [bestSource] at h
      rcases hbs : bestSource key rest with _ | ⟨i', v'⟩ <;>
        rw [hbs] at h
      · exact absurd h (by simp)
      · by_cases hlt : key v' < key x <;> simp [hlt] at h

theorem bestSource_min_heads {α : Type} (key : α → Int) :
    ∀ (srcs : List (List α)) (i : Nat) (v : α),
      bestSource key srcs = some (i, v) →
      ∀ (j : Nat) (h : α) (t : List α), srcs[j]? = some (h :: t) →
        key v ≤ key h
  | [], i, v => by simp [bestSource]
  | [] :: rest, i, v => by
      simp only [bestSource, Option.map_eq_some']
      rintro ⟨⟨i', v'⟩, hbs, hev⟩ j h t hj
      cases hev
      match j with
      | 0 => simp at hj
      | j + 1 =>
          exact bestSource_min_heads key rest i' v' hbs j h t (by simpa using hj)
  | (x :: xs) :: rest, i, v => by
      intro hb j h t hj
      rcases hbs : bestSource key rest with _ | ⟨i', v'⟩ <;>
        simp only [bestSource, hbs] at hb
      · cases hb
        match j with
        | 0 =>
            simp at hj
            simp [hj.1]
        | j + 1 =>
            have hnone := bestSource_eq_none key rest hbs
            have hmem : (h :: t) ∈ rest :=
              List.mem_iff_getElem?.2 ⟨j, by simpa using hj⟩
            exact absurd (hnone _ hmem) (by simp)
      · by_cases hlt : key v' < key x
        · rw [if_pos hlt] at hb
          cases hb
          match j with
          | 0 =>
              simp at hj
              rw [hj.1] at hlt
              exact le_of_lt hlt
          | j + 1 =>
              exact bestSource_min_heads key rest i' v hbs j h t (by simpa using hj)
        · rw [if_neg hlt] at hb
          cases hb
          match j with
          | 0 =>
              simp at hj
              simp [hj.1]
          | j + 1 =>
              have hx : key x ≤ key v' := le_of_not_lt hlt
              have hle := bestSource_min_heads key rest i' v' hbs j h t (by simpa using hj)
              exact le_trans hx hle

theorem bestSource_tie {α : Type} (key : α → Int) :
    ∀ (srcs : List (List α)) (i : Nat) (v : α),
      bestSource key srcs = some (i, v) →
      ∀ j, j < i → ∀ (h : α) (t : List α), srcs[j]? = some (h :: t) →
        key v < key h
  | [], i, v => by simp [bestSource]
  | [] :: rest, i, v => by
      simp only [bestSource, Option.map_eq_some']
      rintro ⟨⟨i', v'⟩, hbs, hev⟩ j hj h t hget
      cases hev
      match j with
      | 0 => simp at hget
      | j + 1 =>
          exact bestSource_tie key rest i' v' hbs j (by omega) h t
            (by simpa using hget)
  | (x :: xs) :: rest, i, v => by
      intro hb j hj h t hget
      rcases hbs : bestSource key rest with _ | ⟨i', v'⟩ <;>
        simp only [bestSource, hbs] at hb
      · cases hb
        omega
      · by_cases hlt : key v' < key x
        · rw [if_pos hlt] at hb
          cases hb
          match j with
          | 0 =>
              simp at hget
              rw [hget.1] at hlt
              exact hlt
          | j + 1 =>
              exact bestSource_tie key rest i' v hbs j (by omega) h t
                (by simpa using hget)
        · rw [if_neg hlt] at hb
          cases hb
          omega

theorem flatten_popAt_perm {α : Type} :
    ∀ (srcs : List (List α)) (i : Nat) (x : α) (t : List α),
      srcs[i]? = some (x :: t) →
      srcs.flatten.Perm (x :: (popAt srcs i).flatten)
  | [], i, x, t => by simp
  | l :: rest, 0, x, t => by
      intro h
      simp at h
      subst h
      simp [popAt]
  | l :: rest, i + 1, x, t => by
      intro h
      have ih := flatten_popAt_perm rest i x t (by simpa using h)
      have h1 : ((l :: rest).flatten).Perm (l ++ (x :: (popAt rest i).flatten)) := by
        simpa using ih.append_left l
      have h2 : (l ++ (x :: (popAt rest i).flatten)).Perm
          (x :: (l ++ (popAt rest i).flatten)) := List.perm_middle
      have h3 := h1.trans h2
      simpa [popAt] using h3

theorem totalLen_eq_length_flatten {α : Type} (srcs : List (List α)) :
    totalLen srcs = srcs.flatten.length := by
  simp [totalLen]

theorem mergeOrderedAux_perm {α : Type} (key : α → Int) :
    ∀ (fuel : Nat) (srcs : List (List α)), totalLen srcs ≤ fuel →
      (mergeOrderedAux key fuel srcs).Perm srcs.flatten
  | 0, srcs => by
      intro hle
      have : srcs.flatten = [] := by
        have := totalLen_eq_length_flatten srcs
        have hlen : srcs.flatten.length = 0 := by omega
        exact List.eq_nil_of_length_eq_zero hlen
      simp [mergeOrderedAux, this]
  | fuel + 1, srcs => by
      intro hle
      rcases hbs : bestSource key srcs with _ | ⟨i, v⟩
      · have : srcs.flatten = [] :=
          List.flatten_eq_nil_iff.2 (bestSource_eq_none key srcs hbs)
        simp [mergeOrderedAux, hbs, this]
      · obtain ⟨t, ht⟩ := bestSource_eq_some key srcs i v hbs
        have hperm := flatten_popAt_perm srcs i v t ht
        have hlen : totalLen (popAt srcs i) ≤ fuel := by
          have h3 : srcs.flatten.length = (popAt srcs i).flatten.length + 1 := by
            have h4 := hperm.length_eq
            rw [List.length_cons] at h4
            exact h4
          rw [totalLen_eq_length_flatten] at hle ⊢
          omega
        have ih := mergeOrderedAux_perm key fuel (popAt srcs i) hlen
        rw [mergeOrderedAux, hbs]
        exact (ih.cons v).trans hperm.symm

/-- Generic sortedness of the fuelled ordered merge, parametrized by an
invariant `P` on the streams that is preserved by popping the chosen head
and that forces the chosen element below everything still buffered. -/
theorem mergeOrderedAux_sorted {α : Type} (key : α → Int) (R : α → α → Prop)
    (P : List (List α) → Prop)
    (hpop : ∀ srcs i v t, srcs[i]? = some (v :: t) → P srcs → P (popAt srcs i))
    (hmin : ∀ srcs i v, bestSource key srcs = some (i, v) → P srcs →
      ∀ b ∈ srcs.flatten, R v b) :
    ∀ (fuel : Nat) (srcs : List (List α)), totalLen srcs ≤ fuel → P srcs →
      (mergeOrderedAux key fuel srcs).Sorted R
  | 0, srcs => by
      intro _ _
      simp [mergeOrderedAux]
  | fuel + 1, srcs => by
      intro hle hP
      rcases hbs : bestSource key srcs with _ | ⟨i, v⟩
      · simp [mergeOrderedAux, hbs]
      · obtain ⟨t, ht⟩ := bestSource_eq_some key srcs i v hbs
        have hperm := flatten_popAt_perm srcs i v t ht
        have hlen : totalLen (popAt srcs i) ≤ fuel := by
          have h3 : srcs.flatten.length = (popAt srcs i).flatten.length + 1 := by
            have h4 := hperm.length_eq
            rw [List.length_cons] at h4
            exact h4
          rw [totalLen_eq_length_flatten] at hle ⊢
          omega
        have hP' := hpop srcs i v t ht hP
        have ih := mergeOrderedAux_sorted key R P hpop hmin fuel (popAt srcs i)
          hlen hP'
        rw [mergeOrderedAux, hbs]
        rw [List.sorted_cons]
        refine ⟨fun b hb => ?_, ih⟩
        have hbmem : b ∈ (popAt srcs i).flatten :=
          (mergeOrderedAux_perm key fuel (popAt srcs i) hlen).mem_iff.1 hb
        have : b ∈ srcs.flatten := hperm.symm.mem_iff.1 (List.mem_cons_of_mem v hbmem)
        exact hmin srcs i v hbs hP b this

theorem mergeOrdered_perm {α : Type} (key : α → Int) (srcs : List (List α)) :
    (mergeOrdered key srcs).Perm srcs.flatten :=
  mergeOrderedAux_perm key (totalLen srcs) srcs le_rfl

theorem sorted_popAt {α : Type} (key : α → Int) (srcs : List (List α)) (i : Nat)
    (hs : ∀ l ∈ srcs, l.Sorted (fun a b => key a ≤ key b)) :
    ∀ l ∈ popAt srcs i, l.Sorted (fun a b => key a ≤ key b) := by
  intro l hl
  obtain ⟨j, hj⟩ := List.mem_iff_getElem?.1 hl
  rw [popAt_getElem?] at hj
  by_cases hij : i = j
  · rw [if_pos hij] at hj
    obtain ⟨l₀, hl₀, htail⟩ := Option.map_eq_some'.1 hj
    have hmem : l₀ ∈ srcs := List.mem_iff_getElem?.2 ⟨j, hl₀⟩
    rw [← htail]
    exact (hs l₀ hmem).tail
  · rw [if_neg hij] at hj
    exact hs l (List.mem_iff_getElem?.2 ⟨j, hj⟩)

theorem bestSource_min_flatten {α : Type} (key : α → Int)
    (srcs : List (List α)) (i : Nat) (v : α)
    (hbs : bestSource key srcs = some (i, v))
    (hs : ∀ l ∈ srcs, l.Sorted (fun a b => key a ≤ key b)) :
    ∀ b ∈ srcs.flatten, key v ≤ key b := by
  intro b hb
  obtain ⟨l, hl, hbl⟩ := List.mem_flatten.1 hb
  obtain ⟨j, hj⟩ := List.mem_iff_getElem?.1 hl
  cases l with
  | nil => simp at hbl
  | cons h t =>
      have hvh : key v ≤ key h := bestSource_min_heads key srcs i v hbs j h t hj
      rcases List.mem_cons.1 hbl with rfl | hbt
      · exact hvh
      · exact le_trans hvh ((List.sorted_cons.1 (hs _ hl)).1 b hbt)

/-- Modelled from the spec: the sort-merge output order with the source
insertion order as tie-break — strictly smaller key first, equal keys
ordered by source index. -/
def lexLe (a b : Int × Nat) : Prop :=
  a.1 < b.1 ∨ (a.1 = b.1 ∧ a.2 ≤ b.2)

instance : DecidableRel lexLe := fun a b => by
  unfold lexLe
  infer_instance

theorem tagged_popAt (srcs : List (List (Int × Nat))) (i : Nat)
    (ht : ∀ (j : Nat) (l : List (Int × Nat)), srcs[j]? = some l → ∀ p ∈ l, p.2 = j) :
    ∀ (j : Nat) (l : List (Int × Nat)), (popAt srcs i)[j]? = some l → ∀ p ∈ l, p.2 = j := by
  intro j l hj p hp
  rw [popAt_getElem?] at hj
  by_cases hij : i = j
  · rw [if_pos hij] at hj
    obtain ⟨l₀, hl₀, htail⟩ := Option.map_eq_some'.1 hj
    refine ht j l₀ hl₀ p (List.mem_of_mem_tail ?_)
    rw [htail]
    exact hp
  · rw [if_neg hij] at hj
    exact ht j l hj p hp

theorem bestSource_min_lex (srcs : List (List (Int × Nat))) (i : Nat)
    (v : Int × Nat) (hbs : bestSource Prod.fst srcs = some (i, v))
    (hTag : ∀ (j : Nat) (l : List (Int × Nat)), srcs[j]? = some l → ∀ p ∈ l, p.2 = j)
    (hs : ∀ l ∈ srcs, l.Sorted (fun a b => a.1 ≤ b.1)) :
    ∀ b ∈ srcs.flatten, lexLe v b := by
  intro b hb
  have hv1 : v.1 ≤ b.1 := bestSource_min_flatten Prod.fst srcs i v hbs hs b hb
  rcases lt_or_eq_of_le hv1 with hlt | heq
  · exact Or.inl hlt
  · refine Or.inr ⟨heq, ?_⟩
    obtain ⟨l, hl, hbl⟩ := List.mem_flatten.1 hb
    obtain ⟨j, hj⟩ := List.mem_iff_getElem?.1 hl
    obtain ⟨t', hti⟩ := bestSource_eq_some Prod.fst srcs i v hbs
    have hv2 : v.2 = i := hTag i (v :: t') hti v (List.mem_cons_self v t')
    have hb2 : b.2 = j := hTag j l hj b hbl
    rw [hv2, hb2]
    by_contra hji
    push_neg at hji
    cases l with
    | nil => simp at hbl
    | cons h t =>
        have hhead : v.1 < h.1 := bestSource_tie Prod.fst srcs i v hbs j hji h t hj
        have hhb : h.1 ≤ b.1 := by
          rcases List.mem_cons.1 hbl with rfl | hbt
          · exact le_rfl
          · exact (List.sorted_cons.1 (hs _ hl)).1 b hbt
        omega

theorem mergeOrdered_sorted {α : Type} (key : α → Int) (srcs : List (List α))
    (hs : ∀ l ∈ srcs, l.Sorted (fun a b => key a ≤ key b)) :
    (mergeOrdered key srcs).Sorted (fun a b => key a ≤ key b) :=
  mergeOrderedAux_sorted key (fun a b => key a ≤ key b)
    (fun s => ∀ l ∈ s, l.Sorted (fun a b => key a ≤ key b))
    (fun s i _ _ _ hP => sorted_popAt key s i hP)
    (fun s i v hbs hP => bestSource_min_flatten key s i v hbs hP)
    (totalLen srcs) srcs le_rfl hs

theorem mergeOrdered_tagged_sorted (srcs : List (List (Int × Nat)))
    (hTag : ∀ (j : Nat) (l : List (Int × Nat)), srcs[j]? = some l → ∀ p ∈ l, p.2 = j)
    (hs : ∀ l ∈ srcs, l.Sorted (fun a b => a.1 ≤ b.1)) :
    (mergeOrdered Prod.fst srcs).Sorted lexLe :=
  mergeOrderedAux_sorted Prod.fst lexLe
    (fun s => (∀ (j : Nat) (l : List (Int × Nat)), s[j]? = some l → ∀ p ∈ l, p.2 = j) ∧
      (∀ l ∈ s, l.Sorted (fun a b => a.1 ≤ b.1)))
    (fun s i _ _ _ hP => ⟨tagged_popAt s i hP.1, sorted_popAt Prod.fst s i hP.2⟩)
    (fun s i v hbs hP => bestSource_min_lex s i v hbs hP.1 hP.2)
    (totalLen srcs) srcs le_rfl ⟨hTag, hs⟩

theorem mergeUnordered_perm {α : Type} :
    ∀ (sched : List Nat) (srcs : List (List α)),
      (mergeUnordered sched srcs).Perm srcs.flatten
  | [], srcs => List.Perm.refl _
  | i :: sched, srcs => by
      rcases h : srcs[i]? with _ | l
      · simpa [mergeUnordered, mergeUnorderedAux, h] using
          mergeUnordered_perm sched srcs
      · cases l with
        | nil =>
            simpa [mergeUnordered, mergeUnorderedAux, h] using
              mergeUnordered_perm sched srcs
        | cons x rest =>
            have ih := mergeUnordered_perm sched (popAt srcs i)
            have hperm := flatten_popAt_perm srcs i x rest h
            have hout : mergeUnordered (i :: sched) srcs =
                x :: mergeUnordered sched (popAt srcs i) := by
              simp [mergeUnordered, mergeUnorderedAux, h]
            rw [hout]
            exact (ih.cons x).trans hperm.symm

/-! Lemmas about the stage lifecycle state machine. -/

theorem armKillEffects_eq (killOutcome : Nat → Bool) (arm : AsyncResultsMerger) :
    armKillEffects killOutcome arm =
      arm.remotes.map fun r => Effect.killCursor r.hostIdentity r.handle := by
  unfold armKillEffects
  apply List.map_congr_left
  intro r _
  cases killOutcome r.handle <;> rfl

theorem isActive_of_isUnclaimed (s : DocumentSourceMergeCursors) :
    isUnclaimed s = true → isActive s = false := by
  rcases s with ⟨st⟩
  cases st <;> simp [isUnclaimed, isActive]

theorem step_preserves_claimed (ko : Nat → Bool)
    (s : DocumentSourceMergeCursors) (op : Op)
    (h : isUnclaimed s = false) : isUnclaimed (step ko s op).1 = false := by
  rcases s with ⟨st⟩
  cases st with
  | unclaimed p => simp [isUnclaimed] at h
  | active arm =>
      cases op with
      | pull =>
          rcases h' : armNext arm with e | ⟨arm', r⟩ <;>
            simp [step, getNext, h', isUnclaimed]
      | dispose =>
          simp only [step, doDispose]
          split <;> simp [isUnclaimed]
      | detach => simpa [step, detachFromOperationContext] using h
      | reattach => simp [step, reattachToOperationContext, isUnclaimed]
  | disposed =>
      cases op with
      | pull => simp [step, getNext, isUnclaimed]
      | dispose => simp [step, doDispose, isUnclaimed]
      | detach => simpa [step, detachFromOperationContext] using h
      | reattach => simp [step, reattachToOperationContext, isUnclaimed]

theorem claimCount_run_of_claimed (ko : Nat → Bool) :
    ∀ (ops : List Op) (s : DocumentSourceMergeCursors),
      isUnclaimed s = false → claimCount (runStates ko s ops) = 0
  | [], s, h => by simp [runStates, claimCount]
  | op :: ops, s, h => by
      have h' := step_preserves_claimed ko s op h
      have ih := claimCount_run_of_claimed ko ops (step ko s op).1 h'
      rw [runStates]
      rcases hrs : runStates ko (step ko s op).1 ops with _ | ⟨s', rest⟩
      · simp [claimCount]
      · rw [hrs] at ih
        rw [claimCount]
        simp [h, ih]

theorem claimCount_cons (ko : Nat → Bool) (s s' : DocumentSourceMergeCursors)
    (ops : List Op) :
    claimCount (s :: runStates ko s' ops) =
      (if isUnclaimed s && isActive s' then 1 else 0) +
        claimCount (runStates ko s' ops) := by
  cases ops <;> rfl

theorem claimCount_le_one (ko : Nat → Bool) :
    ∀ (ops : List Op) (s : DocumentSourceMergeCursors),
      claimCount (runStates ko s ops) ≤ 1
  | [], s => by simp [runStates, claimCount]
  | op :: ops, s => by
      rw [runStates, claimCount_cons]
      rcases hu : isUnclaimed s with _ | _
      · have h0 := claimCount_run_of_claimed ko ops (step ko s op).1
          (step_preserves_claimed ko s op hu)
        simp [hu, h0]
      · rcases hu' : isUnclaimed (step ko s op).1 with _ | _
        · have h0 := claimCount_run_of_claimed ko ops (step ko s op).1 hu'
          simp [h0]
          split <;> omega
        · have hna := isActive_of_isUnclaimed _ hu'
          have ih := claimCount_le_one ko ops (step ko s op).1
          simp [hu, hna]
          exact ih

/-! The claims. -/

/-- C1: disposing a stage in the Unclaimed state — the state `create` and
`createFromBson` produce, before any pull — attempts to kill no remote
cursor handle, for every substrate kill outcome: disposal from Unclaimed
leaves all remote resources alive. -/
theorem unclaimed_dispose_kills_nothing :
    (∀ (ko : Nat → Bool) (s : DocumentSourceMergeCursors)
        (params : ClusterClientCursorParams), s.state = .unclaimed params →
        (doDispose ko s).2 = [] ∧ (doDispose ko s).1.state = .disposed)
    ∧ (∀ (remotes : List RemoteSource) (s : DocumentSourceMergeCursors),
        create remotes = .ok s → ∃ params, s.state = .unclaimed params)
    ∧ (∀ (w : WireForm) (s : DocumentSourceMergeCursors),
        createFromBson w = .ok s → ∃ params, s.state = .unclaimed params) := by
  refine ⟨?_, ?_, ?_⟩
  · intro ko s params h
    rcases s with ⟨st⟩
    cases h
    exact ⟨rfl, rfl⟩
  · intro remotes s h
    unfold create at h
    split at h
    · simp at h
    · cases h
      exact ⟨_, rfl⟩
  · intro w s h
    unfold createFromBson at h
    split at h
    · simp at h
    · cases h
      exact ⟨_, rfl⟩

/-- Witness for C1 at a one-source stage. -/
theorem unclaimed_dispose_kills_nothing_witness :
    ((doDispose (fun _ => true) { state := .unclaimed sampleParams }).2 = [] ∧
      (doDispose (fun _ => true)
        { state := .unclaimed sampleParams }).1.state = .disposed)
    ∧ (∃ params,
        ({ state := .unclaimed { remotes := sampleParams.remotes, sortKey := none } } :
          DocumentSourceMergeCursors).state = .unclaimed params)
    ∧ (∃ params,
        ({ state := .unclaimed { remotes := sampleWire.remotes, sortKey := sampleWire.sortKey } } :
          DocumentSourceMergeCursors).state = .unclaimed params) :=
  ⟨unclaimed_dispose_kills_nothing.1 (fun _ => true) _ _ rfl,
   unclaimed_dispose_kills_nothing.2.1 sampleParams.remotes _ (by decide),
   unclaimed_dispose_kills_nothing.2.2 sampleWire _ (by decide)⟩

/-- C2: the Unclaimed-to-Active transition happens at most once along any
operation sequence and only a pull triggers it; the first pull on an
Unclaimed stage behaves exactly as a pull on a stage holding the engine
freshly constructed from the held parameters (which are thereby consumed),
and every pull on an Active stage forwards to that engine. -/
theorem claim_transition_at_most_once :
    (∀ (params : ClusterClientCursorParams),
        getNext { state := .unclaimed params } =
          getNext { state := .active (armInit params) })
    ∧ (∀ (params : ClusterClientCursorParams)
          (s' : DocumentSourceMergeCursors) (r : Option Int),
        getNext { state := .unclaimed params } = .ok (s', r) →
        ∃ arm', armNext (armInit params) = .ok (arm', r) ∧
          s' = { state := .active arm' })
    ∧ (∀ (arm arm' : AsyncResultsMerger) (r : Option Int),
        armNext arm = .ok (arm', r) →
        getNext { state := .active arm } = .ok ({ state := .active arm' }, r))
    ∧ (∀ (ko : Nat → Bool) (s : DocumentSourceMergeCursors) (op : Op),
        isUnclaimed s = true → isActive (step ko s op).1 = true → op = .pull)
    ∧ (∀ (ko : Nat → Bool) (ops : List Op) (s : DocumentSourceMergeCursors),
        claimCount (runStates ko s ops) ≤ 1) := by
  refine ⟨fun params => rfl, ?_, ?_, ?_, fun ko ops s => claimCount_le_one ko ops s⟩
  · intro params s' r h
    simp only [getNext] at h
    rcases harm : armNext (armInit params) with e | ⟨arm', r'⟩ <;> rw [harm] at h
    · simp at h
    · cases h
      exact ⟨arm', rfl, rfl⟩
  · intro arm arm' r h
    simp only [getNext, h]
  · intro ko s op hu ha
    rcases s with ⟨st⟩
    cases st with
    | unclaimed p =>
        cases op with
        | pull => rfl
        | dispose => simp [step, doDispose, isActive] at ha
        | detach => simp [step, detachFromOperationContext, isActive] at ha
        | reattach => simp [step, reattachToOperationContext, isActive] at ha
    | active arm => simp [isUnclaimed] at hu
    | disposed => simp [isUnclaimed] at hu

/-- Witness for C2 at a one-source stage with a three-operation trace. -/
theorem claim_transition_at_most_once_witness :
    (∃ arm', armNext (armInit samplePullParams) = .ok (arm', some 5) ∧
      ({ state := .active samplePulledArm } : DocumentSourceMergeCursors) =
        { state := .active arm' })
    ∧ Op.pull = Op.pull
    ∧ claimCount (runStates (fun _ => true)
        { state := .unclaimed samplePullParams }
        [.pull, .pull, .dispose]) ≤ 1 :=
  ⟨claim_transition_at_most_once.2.1 _ _ (some 5) (by decide),
   claim_transition_at_most_once.2.2.2.1 (fun _ => true)
     { state := .unclaimed samplePullParams } .pull (by decide) (by decide),
   claim_transition_at_most_once.2.2.2.2 (fun _ => true) [.pull, .pull, .dispose] _⟩

/-- C3: serialization round-trips — parsing the wire form of an Unclaimed
stage with a non-empty source set yields an Unclaimed stage with the same
remote sources (hosts, handles and pending batches) and the same sort
key. -/
theorem serialize_parse_roundtrip :
    ∀ (params : ClusterClientCursorParams) (s : DocumentSourceMergeCursors),
      s.state = .unclaimed params → params.remotes ≠ [] →
      ∃ w, serializeToArray s = some w ∧ w.remotes = params.remotes ∧
        w.sortKey = params.sortKey ∧
        createFromBson w = .ok { state := .unclaimed params } := by
  intro params s h hne
  rcases s with ⟨st⟩
  cases h
  refine ⟨{ remotes := params.remotes, sortKey := params.sortKey }, rfl, rfl, rfl, ?_⟩
  unfold createFromBson
  rw [if_neg]
  simp [List.isEmpty_iff, hne]

/-- Witness for C3 at a two-source stage with a sort key. -/
theorem serialize_parse_roundtrip_witness :
    ∃ w, serializeToArray { state := .unclaimed sampleSortedParams } = some w ∧
      w.remotes = sampleSortedParams.remotes ∧
      w.sortKey = sampleSortedParams.sortKey ∧
      createFromBson w = .ok { state := .unclaimed sampleSortedParams } :=
  serialize_parse_roundtrip sampleSortedParams _ rfl (by decide)

/-- C4: when every stream is individually sorted by the key, the ordered
merge emits a non-decreasing sequence that is a permutation of the union of
the inputs (nothing dropped or duplicated); on streams tagged with their
source index the output is moreover sorted by key with ties in source
insertion order; the unordered merge is a permutation of the union for every
arrival schedule. -/
theorem merge_output_correct :
    (∀ (srcs : List (List Int)),
        (∀ l ∈ srcs, l.Sorted (fun a b => a ≤ b)) →
        (mergeOrdered (fun v => v) srcs).Sorted (fun a b => a ≤ b) ∧
        (mergeOrdered (fun v => v) srcs).Perm srcs.flatten)
    ∧ (∀ (srcs : List (List (Int × Nat))),
        (∀ (j : Nat) (hj : j < srcs.length), ∀ p ∈ srcs[j], p.2 = j) →
        (∀ l ∈ srcs, l.Sorted (fun a b => a.1 ≤ b.1)) →
        (mergeOrdered Prod.fst srcs).Sorted lexLe ∧
        (mergeOrdered Prod.fst srcs).Perm srcs.flatten)
    ∧ (∀ (sched : List Nat) (srcs : List (List Int)),
        (mergeUnordered sched srcs).Perm srcs.flatten) := by
  refine ⟨?_, ?_, fun sched srcs => mergeUnordered_perm sched srcs⟩
  · intro srcs hs
    exact ⟨mergeOrdered_sorted (fun v => v) srcs hs, mergeOrdered_perm _ srcs⟩
  · intro srcs hTagB hs
    have hTag : ∀ (j : Nat) (l : List (Int × Nat)), srcs[j]? = some l →
        ∀ p ∈ l, p.2 = j := by
      intro j l hj p hp
      obtain ⟨hlt, hval⟩ := List.getElem?_eq_some_iff.1 hj
      refine hTagB j hlt p ?_
      rw [hval]
      exact hp
    exact ⟨mergeOrdered_tagged_sorted srcs hTag hs, mergeOrdered_perm _ srcs⟩

/-- Witness for C4 at the three-source example of the spec, a tagged
variant with a tie, and one unordered schedule. -/
theorem merge_output_correct_witness :
    ((mergeOrdered (fun v => v) [[1, 4, 7], [2, 5, 8], [3, 6, 9]]).Sorted (fun a b => a ≤ b) ∧
      (mergeOrdered (fun v => v) [[1, 4, 7], [2, 5, 8], [3, 6, 9]]).Perm
        ([[1, 4, 7], [2, 5, 8], [3, 6, 9]] : List (List Int)).flatten)
    ∧ ((mergeOrdered Prod.fst taggedSample).Sorted lexLe ∧
        (mergeOrdered Prod.fst taggedSample).Perm taggedSample.flatten)
    ∧ (mergeUnordered [0, 1, 2, 0, 1, 2] ([[1, 4, 7], [2, 5, 8], [3, 6, 9]] : List (List Int))).Perm
        ([[1, 4, 7], [2, 5, 8], [3, 6, 9]] : List (List Int)).flatten
    ∧ mergeOrdered (fun v => v) ([[1, 4, 7], [2, 5, 8], [3, 6, 9]] : List (List Int)) =
        [1, 2, 3, 4, 5, 6, 7, 8, 9] :=
  ⟨merge_output_correct.1 _ (by decide),
   merge_output_correct.2.1 taggedSample (by decide) (by decide),
   merge_output_correct.2.2 [0, 1, 2, 0, 1, 2] _,
   by decide⟩

/-- C5: the sort-absorption rewrite — on an Unclaimed, unordered stage
followed by a pure sort by key `K`, `doOptimizeAt` sets the held sort
specification to `K` and reports the sort stage removable; on an Active
stage it rewrites nothing. -/
theorem doOptimizeAt_absorbs_sort :
    (∀ (params : ClusterClientCursorParams) (k : SortKeySpec),
        params.sortKey = none →
        doOptimizeAt { state := .unclaimed params } (some (.sortStage k)) =
          ({ state := .unclaimed { remotes := params.remotes, sortKey := some k } }, true))
    ∧ (∀ (arm : AsyncResultsMerger) (next : Option PipelineStage),
        doOptimizeAt { state := .active arm } next =
          ({ state := .active arm }, false)) := by
  constructor
  · intro params k h
    rcases params with ⟨remotes, sk⟩
    cases h
    rfl
  · intro arm next
    rcases next with _ | ps
    · rfl
    · cases ps <;> rfl

/-- Witness for C5 at a one-source unordered stage and an Active stage. -/
theorem doOptimizeAt_absorbs_sort_witness :
    doOptimizeAt { state := .unclaimed sampleParams } (some (.sortStage [("k", true)])) =
      ({ state := .unclaimed { remotes := sampleParams.remotes, sortKey := some [("k", true)] } }, true)
    ∧ doOptimizeAt { state := .active samplePulledArm } (some (.sortStage [("k", true)])) =
      ({ state := .active samplePulledArm }, false) :=
  ⟨doOptimizeAt_absorbs_sort.1 sampleParams [("k", true)] rfl,
   doOptimizeAt_absorbs_sort.2 samplePulledArm (some (.sortStage [("k", true)]))⟩

/-- C6: `create` fails with InvalidArgument exactly when the supplied remote
source set is empty, and on a non-empty set returns an Unclaimed stage
holding exactly those sources with no sort key. -/
theorem create_invalid_iff_empty :
    (∀ (remotes : List RemoteSource),
        create remotes = .error .invalidArgument ↔ remotes = [])
    ∧ (∀ (remotes : List RemoteSource), remotes ≠ [] →
        create remotes =
          .ok { state := .unclaimed { remotes := remotes, sortKey := none } }) := by
  constructor
  · intro remotes
    constructor
    · intro h
      unfold create at h
      split at h
      · next hemp => exact List.isEmpty_iff.1 hemp
      · simp at h
    · intro h
      subst h
      decide
  · intro remotes h
    simp [create, List.isEmpty_eq_false.mpr h]

/-- Witness for C6 at the empty set and a one-source set. -/
theorem create_invalid_iff_empty_witness :
    (create [] = .error .invalidArgument ↔ ([] : List RemoteSource) = [])
    ∧ create sampleParams.remotes =
        .ok { state := .unclaimed { remotes := sampleParams.remotes, sortKey := none } } :=
  ⟨create_invalid_iff_empty.1 [],
   create_invalid_iff_empty.2 sampleParams.remotes (by decide)⟩

/-- C7: disposing an Active stage twice kills the remaining remote
resources exactly once (the second disposal attempts nothing), and disposal
always completes in the Disposed state with a result independent of
whether the substrate's kill attempts succeed or fail. -/
theorem dispose_exactly_once :
    (∀ (ko ko' : Nat → Bool) (arm : AsyncResultsMerger)
        (s : DocumentSourceMergeCursors),
        s.state = .active arm → arm.killed = false →
        (doDispose ko s).2 =
          arm.remotes.map (fun r => Effect.killCursor r.hostIdentity r.handle) ∧
        (doDispose ko' (doDispose ko s).1).2 = [] ∧
        (doDispose ko' (doDispose ko s).1).1.state = .disposed)
    ∧ (∀ (ko : Nat → Bool) (s : DocumentSourceMergeCursors),
        (doDispose ko s).1.state = .disposed)
    ∧ (∀ (ko ko' : Nat → Bool) (s : DocumentSourceMergeCursors),
        doDispose ko s = doDispose ko' s) := by
  refine ⟨?_, ?_, ?_⟩
  · intro ko ko' arm s h hk
    rcases s with ⟨st⟩
    cases h
    simp [doDispose, hk, armKillEffects_eq]
  · intro ko s
    rcases s with ⟨st⟩
    cases st with
    | unclaimed p => rfl
    | active arm =>
        simp only [doDispose]
        split <;> rfl
    | disposed => rfl
  · intro ko ko' s
    rcases s with ⟨st⟩
    cases st with
    | unclaimed p => rfl
    | active arm => simp [doDispose, armKillEffects_eq]
    | disposed => rfl

/-- Witness for C7: double disposal of a one-source Active stage, the
second disposal with a failing substrate. -/
theorem dispose_exactly_once_witness :
    (doDispose (fun _ => true) { state := .active samplePulledArm }).2 =
      samplePulledArm.remotes.map (fun r => Effect.killCursor r.hostIdentity r.handle) ∧
    (doDispose (fun _ => false) (doDispose (fun _ => true) { state := .active samplePulledArm }).1).2 = [] ∧
    (doDispose (fun _ => false) (doDispose (fun _ => true) { state := .active samplePulledArm }).1).1.state = .disposed :=
  dispose_exactly_once.1 (fun _ => true) (fun _ => false) samplePulledArm _ rfl rfl

/-- C8: reattaching an execution context to a never-claimed (Unclaimed)
stage fails with IllegalState, and pulling from a stage that was created and
then disposed fails with IllegalState. -/
theorem reattach_and_pull_after_dispose_illegal :
    (∀ (params : ClusterClientCursorParams),
        reattachToOperationContext { state := .unclaimed params } =
          .error .illegalState)
    ∧ (∀ (ko : Nat → Bool) (remotes : List RemoteSource)
          (s : DocumentSourceMergeCursors),
        create remotes = .ok s →
        getNext (doDispose ko s).1 = .error .illegalState) := by
  constructor
  · intro params
    rfl
  · intro ko remotes s h
    unfold create at h
    split at h
    · simp at h
    · cases h
      rfl

/-- Witness for C8: a one-source create-dispose-pull sequence. -/
theorem reattach_and_pull_after_dispose_illegal_witness :
    reattachToOperationContext { state := .unclaimed sampleParams } = .error .illegalState ∧
    getNext (doDispose (fun _ => true)
      { state := .unclaimed { remotes := sampleParams.remotes, sortKey := none } }).1 =
      .error .illegalState :=
  ⟨reattach_and_pull_after_dispose_illegal.1 sampleParams,
   reattach_and_pull_after_dispose_illegal.2 (fun _ => true) sampleParams.remotes _ (by decide)⟩

/-- C9: the single-Value `serialize` member unconditionally traps
(`MONGO_UNREACHABLE`) for every stage state and every explain verbosity;
`serializeToArray` is the serialization path that succeeds, emitting the
wire form of every Unclaimed stage. -/
theorem serialize_always_unreachable :
    (∀ (s : DocumentSourceMergeCursors) (explain : Option Verbosity),
        serialize s explain = .unreachableTrap)
    ∧ (∀ (params : ClusterClientCursorParams),
        serializeToArray { state := .unclaimed params } =
          some { remotes := params.remotes, sortKey := params.sortKey }) :=
  ⟨fun _ _ => rfl, fun _ => rfl⟩

/-- C10: `constraints` is constant across stage instances and pipeline
split states: a streaming stage, first in the pipeline, runnable on any
shard, no disk use, disallowed in $facet and transactions, and requiring no
input document source. -/
theorem constraints_constant_state_independent :
    ∀ (s s' : DocumentSourceMergeCursors) (ps ps' : SplitState),
      constraints s ps = constraints s' ps' ∧
      (constraints s ps).streamType = .streaming ∧
      (constraints s ps).requiredPosition = .first ∧
      (constraints s ps).hostRequirement = .anyShard ∧
      (constraints s ps).diskRequirement = .noDiskUse ∧
      (constraints s ps).facetRequirement = .notAllowed ∧
      (constraints s ps).transactionRequirement = .notAllowed ∧
      (constraints s ps).requiresInputDocSource = false :=
  fun _ _ _ _ => ⟨rfl, rfl, rfl, rfl, rfl, rfl, rfl, rfl⟩

end MergeCursors
